import Mathlib

/-!
Verification of the issue-relationship and type-inference engine of the
github-projects-mcp server (src/index.ts), shallowly embedded in Lean.

The embedding models the GitHub repository that the server manipulates as a
`World : Nat → Option Issue`; the external GraphQL collaborator is reduced to
lookups, comment appends and body updates on that world.  All regular
expressions of the source are re-expressed as executable functions on
`List Char`, position-by-position, following JavaScript regex semantics.
-/

namespace GH

deriving instance DecidableEq for Except

/-- Substring containment on character lists: JavaScript `String.prototype.includes`.
The pattern occurs as a contiguous infix.  Source: calls such as
`childIssueBody.includes(..)` and `updatedParentBody.includes(..)` in index.ts. -/
def listContains : List Char → List Char → Bool
  | [], pat => pat.isEmpty
  | c :: rest, pat => pat.isPrefixOf (c :: rest) || listContains rest pat

/-- String-level wrapper for `listContains`. -/
def strContains (s pat : String) : Bool :=
  listContains s.data pat.data

/-- The combined text the classifier works on, from index.ts line 982:
the template concatenation of title, a space and the body (absent body is
the empty string), lower-cased character by character. -/
def combinedText (title : String) (body : Option String) : String :=
  List.asString ((title ++ " " ++ body.getD "").data.map Char.toLower)

/-- Direct embedding of `detectIssueType` (index.ts lines 981-1037): an ordered
chain of keyword-containment tests on the combined lower-cased text. -/
def detectIssueType (title : String) (body : Option String) : Option String :=
  let t := combinedText title body
  if strContains t "epic" || strContains t "initiative" ||
     strContains t "milestone" || strContains t "parent" then some "epic"
  else if strContains t "feature" || strContains t "enhancement" ||
     strContains t "new functionality" || strContains t "add support" ||
     strContains t "implement" then some "feature"
  else if strContains t "bug" || strContains t "fix" || strContains t "error" ||
     strContains t "issue" || strContains t "broken" ||
     strContains t "crash" then some "bug"
  else if strContains t "task" || strContains t "chore" ||
     strContains t "refactor" || strContains t "update" ||
     strContains t "clean" then some "task"
  else if strContains t "story" || strContains t "user story" ||
     strContains t "as a user" || strContains t "i want" then some "story"
  else if strContains t "documentation" || strContains t "docs" ||
     strContains t "readme" || strContains t "guide" then some "documentation"
  else none

/-- The six categories the classifier can return, in their testing order. -/
inductive IssueCat
  | epic | feature | bug | task | story | documentation
deriving DecidableEq, Repr

/-- Keyword set of each category, copied from the conditions of
`detectIssueType`. -/
def catKeywords : IssueCat → List String
  | .epic => ["epic", "initiative", "milestone", "parent"]
  | .feature => ["feature", "enhancement", "new functionality", "add support", "implement"]
  | .bug => ["bug", "fix", "error", "issue", "broken", "crash"]
  | .task => ["task", "chore", "refactor", "update", "clean"]
  | .story => ["story", "user story", "as a user", "i want"]
  | .documentation => ["documentation", "docs", "readme", "guide"]

/-- The string tag `detectIssueType` returns for each category. -/
def catName : IssueCat → String
  | .epic => "epic"
  | .feature => "feature"
  | .bug => "bug"
  | .task => "task"
  | .story => "story"
  | .documentation => "documentation"

/-- Position of each category in the testing order of `detectIssueType`. -/
def catIdx : IssueCat → Nat
  | .epic => 0
  | .feature => 1
  | .bug => 2
  | .task => 3
  | .story => 4
  | .documentation => 5

/-- A category matches a text when some keyword of it occurs as a substring. -/
def catMatches (c : IssueCat) (t : String) : Bool :=
  (catKeywords c).any (fun k => strContains t k)

/-! ## Line machinery

The task-list regular expression of `linkIssues`
(`/(^|\n)(- \[[ x]\] #\d+.*\n)+/gm`, index.ts line 1726) is re-expressed on
the line decomposition of the body: a match is a maximal run of consecutive
newline-terminated task lines, and the replacement trims the end of the last
line of each run and inserts the new checklist item right after it. -/

/-- Split a character list into its newline-separated lines.  Always returns
at least one line; all but the last line were newline-terminated. -/
def splitLines : List Char → List (List Char)
  | [] => [[]]
  | c :: rest =>
    if c = '\n' then [] :: splitLines rest
    else
      match splitLines rest with
      | [] => [[c]]
      | l :: ls => (c :: l) :: ls

/-- Inverse of `splitLines`: intercalate a newline between the lines. -/
def joinLines : List (List Char) → List Char
  | [] => []
  | [l] => l
  | l :: ls => l ++ '\n' :: joinLines ls

/-- One line matches the task-item pattern `- \[[ x]\] #\d+.*` of the source:
dash, space, bracketed space or x, space, hash, at least one digit, anything. -/
def isTaskLine : List Char → Bool
  | '-' :: ' ' :: '[' :: c :: ']' :: ' ' :: '#' :: d :: _ =>
    (c == ' ' || c == 'x') && d.isDigit
  | _ => false

/-- JavaScript `String.prototype.trimEnd` on a single line: drop trailing
whitespace characters. -/
def trimEndL (l : List Char) : List Char :=
  (l.reverse.dropWhile Char.isWhitespace).reverse

/-- Test of the task-list regular expression: some newline-terminated line
(every line of the decomposition except the last) is a task line. -/
def hasTL : List (List Char) → Bool
  | [] => false
  | [_] => false
  | l :: ls => isTaskLine l || hasTL ls

/-- The global replacement of the task-list regular expression with
`match.trimEnd() + newline + item + newline` (index.ts lines 1733-1735):
after each maximal run of newline-terminated task lines, insert `item`,
trimming the end of the last line of the run. -/
def augmentTL (item : List Char) : List (List Char) → List (List Char)
  | [] => []
  | [l] => [l]
  | l :: next :: rest =>
    if isTaskLine l then
      if isTaskLine next && !rest.isEmpty then
        l :: augmentTL item (next :: rest)
      else
        trimEndL l :: item :: augmentTL item (next :: rest)
    else
      l :: augmentTL item (next :: rest)

/-! ## Parent-marker machinery -/

/-- The literal part of the child-body replacement pattern
`/\n\n---\n\*\*Parent:\*\*.+/` (index.ts line 1702). -/
def parentPat : List Char := "\n\n---\n**Parent:**".data

/-- Match of the child-body replacement pattern at the head of `s`: the
literal `parentPat` followed by at least one character other than a newline;
the greedy `.+` consumes to the end of the line.  Returns the remainder after
the match. -/
def pbMatch (s : List Char) : Option (List Char) :=
  if parentPat.isPrefixOf s then
    match s.drop parentPat.length with
    | [] => none
    | c :: rest =>
      if c = '\n' then none else some ((c :: rest).dropWhile (fun x => x != '\n'))
  else none

/-- Non-global regex replacement: replace the first match of the parent-block
pattern by `repl`, scanning positions left to right. -/
def replaceParentBlock (repl : List Char) : List Char → List Char
  | [] => []
  | c :: rest =>
    match pbMatch (c :: rest) with
    | some after => repl ++ after
    | none => c :: replaceParentBlock repl rest

/-- Greedy decimal-digit grab, accumulating the parsed value: the `(\d+)`
group followed by JavaScript `parseInt`. -/
def grabNum : List Char → Nat → Nat × List Char
  | [], acc => (acc, [])
  | c :: rest, acc =>
    if c.isDigit then grabNum rest (10 * acc + (c.toNat - 48)) else (acc, c :: rest)

/-- The literal part of the hierarchy parent-discovery pattern
`/\*\*Parent:\*\* #(\d+)/` (index.ts line 1953). -/
def hierParentPat : List Char := "**Parent:** #".data

/-- First match of the parent-discovery pattern: scan positions left to
right; at a position where the literal prefix is followed by a digit, parse
the greedy digit run. -/
def findParentNum : List Char → Option Nat
  | [] => none
  | c :: rest =>
    if hierParentPat.isPrefixOf (c :: rest) then
      match (c :: rest).drop hierParentPat.length with
      | d :: t => if d.isDigit then some (grabNum (d :: t) 0).1 else findParentNum rest
      | [] => findParentNum rest
    else findParentNum rest

/-- The literal part of the child-discovery pattern `/Tracks #(\d+)/g`
(index.ts line 1989). -/
def tracksPat : List Char := "Tracks #".data

/-- All matches of the child-discovery pattern, in order.  The global regex
resumes after each match; since no character of a match after its first can
begin the pattern (only `T` can, and `racks #` plus digits contain no `T`),
advancing one position at a time finds exactly the same matches. -/
def tracksNums : List Char → List Nat
  | [] => []
  | c :: rest =>
    if tracksPat.isPrefixOf (c :: rest) then
      match (c :: rest).drop tracksPat.length with
      | d :: t =>
        if d.isDigit then (grabNum (d :: t) 0).1 :: tracksNums rest else tracksNums rest
      | [] => tracksNums rest
    else tracksNums rest

/-- Deduplication keeping the first occurrence of each number, with an
accumulator of already-seen numbers: JavaScript `Set` insertion order. -/
def dedupFirstAux (seen : List Nat) : List Nat → List Nat
  | [] => []
  | x :: xs => if x ∈ seen then dedupFirstAux seen xs else x :: dedupFirstAux (x :: seen) xs

/-- JavaScript `Set` built from a list: duplicates dropped, first-occurrence
order kept. -/
def dedupFirst (l : List Nat) : List Nat := dedupFirstAux [] l

/-! ## Stable sort

`Array.prototype.sort` with the comparator `aOrder - bOrder`
(index.ts lines 2036-2040) is a stable sort by a numeric priority; stable
sortedness determines the output uniquely, so it is modelled by stable
insertion sort. -/

/-- Insert `x` before the first element of no smaller priority; elements
passed over have strictly smaller priority, so equal-priority elements that
were already in the list stay behind `x` only if they came later. -/
def insSorted {α : Type} (pri : α → Nat) (x : α) : List α → List α
  | [] => [x]
  | y :: ys => if pri x ≤ pri y then x :: y :: ys else y :: insSorted pri x ys

/-- Stable insertion sort by a numeric priority. -/
def stableSort {α : Type} (pri : α → Nat) : List α → List α
  | [] => []
  | x :: xs => insSorted pri x (stableSort pri xs)

/-- The fixed priority table `{ epic: 0, feature: 1, story: 2, task: 3,
bug: 4, documentation: 5 }` with `?? 6` for anything else
(index.ts lines 2035-2038). -/
def typeOrder : Option String → Nat
  | some s =>
    if s = "epic" then 0 else if s = "feature" then 1 else if s = "story" then 2
    else if s = "task" then 3 else if s = "bug" then 4
    else if s = "documentation" then 5 else 6
  | none => 6

/-! ## Data model and world -/

/-- A GitHub issue as the engine sees it: title, body, state, labels and the
bodies of its comments in creation order. -/
structure Issue where
  title : String
  body : String
  state : String
  labels : List String
  comments : List String
deriving DecidableEq, Repr

/-- The single repository the engine works in: a partial map from issue
number to issue.  The GraphQL collaborator is reduced to lookups and updates
on this map. -/
def World : Type := Nat → Option Issue

/-- Override one issue of the world. -/
def setIssue (w : World) (n : Nat) (f : Issue → Issue) : World :=
  fun m => if m = n then (w m).map f else w m

/-- The addComment GraphQL mutation: append a comment body. -/
def addComment (w : World) (n : Nat) (text : String) : World :=
  setIssue w n (fun i => { i with comments := i.comments ++ [text] })

/-- The updateIssue GraphQL mutation restricted to the body field. -/
def setBody (w : World) (n : Nat) (b : String) : World :=
  setIssue w n (fun i => { i with body := b })

/-- Body of an issue of the world, when present. -/
def bodyOf (w : World) (n : Nat) : Option String := (w n).map Issue.body

/-- Build a world from an association list of numbered issues. -/
def worldOf (l : List (Nat × Issue)) : World :=
  fun n => (l.find? (fun p => p.1 == n)).map Prod.snd

/-! ## Hierarchy manager, write path -/

/-- The three relationship kinds of the link tool. -/
inductive LinkKind
  | tracks | blocks | related
deriving DecidableEq, Repr

/-- Comment posted on the parent (index.ts lines 1615-1619). -/
def parentCommentText : LinkKind → Nat → String
  | .tracks, n => "Tracks #" ++ Nat.repr n
  | .blocks, n => "Blocks #" ++ Nat.repr n
  | .related, n => "Related to #" ++ Nat.repr n

/-- Reciprocal comment posted on the child (index.ts lines 1687-1691). -/
def childCommentText : LinkKind → Nat → String
  | .tracks, n => "Tracked by #" ++ Nat.repr n
  | .blocks, n => "Blocked by #" ++ Nat.repr n
  | .related, n => "Related to #" ++ Nat.repr n

/-- The checklist item written for a child (index.ts line 1722). -/
def taskItemFor (childN : Nat) (childTitle : String) : String :=
  "- [ ] #" ++ Nat.repr childN ++ " " ++ childTitle

/-- Child-body rewrite of `linkIssues` for a tracks link
(index.ts lines 1700-1703): append or replace the trailing parent block. -/
def updateChildBody (parentN : Nat) (parentTitle : String) (body : String) : String :=
  let ref : String := "\n\n---\n**Parent:** #" ++ Nat.repr parentN ++ " - " ++ parentTitle
  if strContains body "**Parent:**" then
    List.asString (replaceParentBlock ref.data body.data)
  else body ++ ref

/-- Parent-body rewrite of `linkIssues` for a tracks link
(index.ts lines 1720-1741): extend an existing task list, guarded by a
whole-body containment check of the child reference, or prepend a new
Tasks section. -/
def updateParentBody (childN : Nat) (childTitle : String) (body : String) : String :=
  let item := taskItemFor childN childTitle
  if hasTL (splitLines body.data) then
    if listContains body.data ('#' :: (Nat.repr childN).data) then body
    else List.asString (joinLines (augmentTL item.data (splitLines body.data)))
  else "### Tasks\n" ++ item ++ "\n\n" ++ body

/-- Observable result of a successful link call (index.ts lines 1750-1768). -/
structure LinkResult where
  parentNumber : Nat
  parentTitle : String
  childNumber : Nat
  childTitle : String
  relationship : LinkKind
deriving DecidableEq, Repr

/-- Embedding of `linkIssues` (index.ts lines 1608-1769).  Both issues are
resolved before any mutation; then a comment is posted on each side; for a
tracks link the child body gains the parent block and the parent body the
checklist item.  The body rewrites use the bodies captured at resolution
time, exactly as the source does. -/
def linkIssues (w : World) (parentN childN : Nat) (kind : LinkKind) :
    Except String LinkResult × World :=
  match w parentN with
  | none => (.error "Parent issue not found", w)
  | some p =>
    match w childN with
    | none => (.error "Child issue not found", w)
    | some c =>
      let w1 := addComment w parentN (parentCommentText kind childN)
      let w2 := addComment w1 childN (childCommentText kind parentN)
      let w3 :=
        match kind with
        | .tracks =>
          let wa := setBody w2 childN (updateChildBody parentN p.title c.body)
          setBody wa parentN (updateParentBody childN c.title p.body)
        | _ => w2
      (.ok ⟨parentN, p.title, childN, c.title, kind⟩, w3)

/-! ## Hierarchy manager, read path -/

/-- Entry of a hierarchy view. -/
structure HierEntry where
  number : Nat
  title : String
  state : String
  labels : List String
  type : Option String
deriving DecidableEq, Repr

/-- The request-scoped hierarchy aggregate. -/
structure Hierarchy where
  current : HierEntry
  parents : List HierEntry
  children : List HierEntry
deriving DecidableEq, Repr

/-- The current-issue entry (index.ts lines 1941-1947): labels capped at 10
by the GraphQL query, type classified from title and body. -/
def hierCurrent (n : Nat) (i : Issue) : HierEntry :=
  ⟨n, i.title, i.state, i.labels.take 10, detectIssueType i.title (some i.body)⟩

/-- A parent or child entry (index.ts lines 1975-1981 and 2021-2027): labels
capped at 5, type classified from the title and an empty body. -/
def hierRelEntry (n : Nat) (i : Issue) : HierEntry :=
  ⟨n, i.title, i.state, i.labels.take 5, detectIssueType i.title (some "")⟩

/-- Priority of a child entry under the fixed type order. -/
def childPri (e : HierEntry) : Nat := typeOrder e.type

/-- The children sort of `getIssueHierarchy` (index.ts lines 2034-2040). -/
def sortChildren (l : List HierEntry) : List HierEntry := stableSort childPri l

/-- Embedding of `getIssueHierarchy` (index.ts lines 1898-2050): fetch the
issue with its first 100 comments, discover at most one parent from the body
marker, discover children from all Tracks comments deduplicated in first
appearance order, absorb failed lookups silently, and sort the children. -/
def getIssueHierarchy (w : World) (n : Nat) : Except String Hierarchy :=
  match w n with
  | none => .error "Issue not found"
  | some issue =>
    let parents :=
      match findParentNum issue.body.data with
      | none => []
      | some pn =>
        match w pn with
        | none => []
        | some p => [hierRelEntry pn p]
    let childNums :=
      dedupFirst (((issue.comments.take 100).map (fun cm => tracksNums cm.data)).flatten)
    let children := childNums.filterMap (fun k => (w k).map (fun ci => hierRelEntry k ci))
    .ok ⟨hierCurrent n issue, parents, sortChildren children⟩

/-! ## Native sub-issue attempt -/

/-- The apostrophe character, kept out of string literals. -/
def apos : String := String.singleton (Char.ofNat 39)

/-- The first capability-absence pattern sniffed by `addSubIssue`
(index.ts line 1881). -/
def fieldMissingPat : String :=
  "Field " ++ apos ++ "addSubIssue" ++ apos ++ " doesn" ++ apos ++ "t exist"

/-- Observable result of `addSubIssue`: either the native relationship
payload or the payload of the manual fallback link. -/
inductive SubIssueResult
  | native (parentNumber : Nat) (parentTitle : String) (childNumber : Nat) (childTitle : String)
  | linked (r : LinkResult)
deriving DecidableEq, Repr

/-- Embedding of `addSubIssue` (index.ts lines 1787-1896).  The outcome of
the native GraphQL mutation is external and passed as a parameter.  On a
failure whose message matches either capability-absence pattern, fall back to
`linkIssues` with kind tracks; any other failure propagates unchanged. -/
def addSubIssue (w : World) (parentN childN : Nat) (nativeOutcome : Except String Unit) :
    Except String SubIssueResult × World :=
  match w parentN, w childN with
  | none, _ => (.error "Parent issue not found", w)
  | some _, none => (.error "Child issue not found", w)
  | some p, some c =>
    match nativeOutcome with
    | .ok _ => (.ok (.native parentN p.title childN c.title), w)
    | .error e =>
      if strContains e fieldMissingPat || strContains e "Unknown field" then
        let r := linkIssues w parentN childN .tracks
        (r.1.map SubIssueResult.linked, r.2)
      else (.error e, w)

/-! ## Issue creation -/

/-- Observable result of `createIssue`: the created issue plus the optional
parent-link outcome fields attached by the source. -/
structure CreateResult where
  number : Nat
  title : String
  body : String
  labels : List String
  parentIssue : Option Nat
  linkError : Option String
deriving DecidableEq, Repr

/-- Embedding of `createIssue` (index.ts lines 1039-1209) over the world:
auto-label from the detected type unless already present (case-sensitive),
keep only labels that resolve in the repository label set, create the issue
under the externally assigned fresh number, then best-effort link to the
requested parent: a link failure is recorded in `linkError` instead of
failing the call (lines 1179-1199). -/
def createIssue (w : World) (repoLabels : List String) (newNumber : Nat)
    (title : String) (body : Option String) (labels : List String)
    (parentIssueNumber : Option Nat) : CreateResult × World :=
  let issueType := detectIssueType title body
  let autoLabels :=
    match issueType with
    | some t => if t ∈ labels then labels else labels ++ [t]
    | none => labels
  let attached := autoLabels.filter (fun l => repoLabels.contains l)
  let created : Issue := ⟨title, body.getD "", "OPEN", attached, []⟩
  let w1 : World := fun m => if m = newNumber then some created else w m
  match parentIssueNumber with
  | none => (⟨newNumber, title, created.body, attached, none, none⟩, w1)
  | some pn =>
    match linkIssues w1 pn newNumber .tracks with
    | (.ok _, w2) => (⟨newNumber, title, created.body, attached, some pn, none⟩, w2)
    | (.error e, w2) => (⟨newNumber, title, created.body, attached, none, some e⟩, w2)

/-! ## Observables used by the claims -/

/-- Number of checklist lines of a body that reference issue `n`: lines
matching the task-item pattern and containing the reference token. -/
def checklistRefCount (n : Nat) (body : String) : Nat :=
  ((splitLines body.data).filter
    (fun l => isTaskLine l && listContains l ('#' :: (Nat.repr n).data))).length

/-! ## Concrete worlds used by counterexamples and witnesses -/

/-- World for the children-sort example: issue 1 tracks, in discovery order,
issues 2 (bug), 3 (epic), 4 (task) and 5 (epic). -/
def c3World : World := worldOf
  [(1, ⟨"Project overview", "", "OPEN", [], ["Tracks #2", "Tracks #3", "Tracks #4", "Tracks #5"]⟩),
   (2, ⟨"Fix crash", "", "OPEN", [], []⟩),
   (3, ⟨"Epic A", "", "OPEN", [], []⟩),
   (4, ⟨"Refactor module", "", "OPEN", [], []⟩),
   (5, ⟨"Epic B", "", "OPEN", [], []⟩)]

/-- World where the child body already holds a bare parent marker that the
replacement pattern cannot match. -/
def c1CexWorld : World := worldOf
  [(100, ⟨"Alpha", "", "OPEN", [], []⟩),
   (101, ⟨"Beta", "**Parent:**", "OPEN", [], []⟩)]

/-- World whose parent body holds two separate task-list blocks. -/
def c5CexWorld : World := worldOf
  [(100, ⟨"P", "- [ ] #1 a\nmiddle\n- [ ] #2 b\n", "OPEN", [], []⟩),
   (101, ⟨"C", "", "OPEN", [], []⟩)]

/-- World whose parent body mentions the child outside the task-list block. -/
def c6CexWorld : World := worldOf
  [(1, ⟨"P", "See #7 discussion\n- [ ] #5 step\n", "OPEN", [], []⟩),
   (7, ⟨"C", "", "OPEN", [], []⟩)]

/-- A minimal world with two fresh issues 100 and 101. -/
def simpleWorld : World := worldOf
  [(100, ⟨"Alpha", "", "OPEN", [], []⟩),
   (101, ⟨"Beta", "", "OPEN", [], []⟩)]

theorem catMatches_epic (t : String) :
    catMatches .epic t =
      (strContains t "epic" || strContains t "initiative" ||
       strContains t "milestone" || strContains t "parent") := by
  simp [catMatches, catKeywords, List.any, Bool.or_assoc]

theorem catMatches_feature (t : String) :
    catMatches .feature t =
      (strContains t "feature" || strContains t "enhancement" ||
       strContains t "new functionality" || strContains t "add support" ||
       strContains t "implement") := by
  simp [catMatches, catKeywords, List.any, Bool.or_assoc]

theorem catMatches_bug (t : String) :
    catMatches .bug t =
      (strContains t "bug" || strContains t "fix" || strContains t "error" ||
       strContains t "issue" || strContains t "broken" || strContains t "crash") := by
  simp [catMatches, catKeywords, List.any, Bool.or_assoc]

theorem catMatches_task (t : String) :
    catMatches .task t =
      (strContains t "task" || strContains t "chore" || strContains t "refactor" ||
       strContains t "update" || strContains t "clean") := by
  simp [catMatches, catKeywords, List.any, Bool.or_assoc]

theorem catMatches_story (t : String) :
    catMatches .story t =
      (strContains t "story" || strContains t "user story" ||
       strContains t "as a user" || strContains t "i want") := by
  simp [catMatches, catKeywords, List.any, Bool.or_assoc]

theorem catMatches_documentation (t : String) :
    catMatches .documentation t =
      (strContains t "documentation" || strContains t "docs" ||
       strContains t "readme" || strContains t "guide") := by
  simp [catMatches, catKeywords, List.any, Bool.or_assoc]

/-- The classifier returns the first category in testing order whose keyword
set matches the combined text. -/
theorem detectIssueType_eq_first_match (title : String) (body : Option String)
    (c : IssueCat)
    (hc : catMatches c (combinedText title body) = true)
    (hearlier : ∀ c2 : IssueCat, catIdx c2 < catIdx c →
      catMatches c2 (combinedText title body) = false) :
    detectIssueType title body = some (catName c) := by
  have hep := catMatches_epic (combinedText title body)
  have hfe := catMatches_feature (combinedText title body)
  have hbu := catMatches_bug (combinedText title body)
  have hta := catMatches_task (combinedText title body)
  have hst := catMatches_story (combinedText title body)
  have hdo := catMatches_documentation (combinedText title body)
  cases c with
  | epic =>
    rw [catMatches_epic] at hc
    simp only [detectIssueType, hc, if_pos]
    rfl
  | feature =>
    have h0 := hearlier .epic (by decide)
    rw [catMatches_epic] at h0
    rw [catMatches_feature] at hc
    simp only [detectIssueType, h0, hc]
    rfl
  | bug =>
    have h0 := hearlier .epic (by decide)
    have h1 := hearlier .feature (by decide)
    rw [catMatches_epic] at h0
    rw [catMatches_feature] at h1
    rw [catMatches_bug] at hc
    simp only [detectIssueType, h0, h1, hc]
    rfl
  | task =>
    have h0 := hearlier .epic (by decide)
    have h1 := hearlier .feature (by decide)
    have h2 := hearlier .bug (by decide)
    rw [catMatches_epic] at h0
    rw [catMatches_feature] at h1
    rw [catMatches_bug] at h2
    rw [catMatches_task] at hc
    simp only [detectIssueType, h0, h1, h2, hc]
    rfl
  | story =>
    have h0 := hearlier .epic (by decide)
    have h1 := hearlier .feature (by decide)
    have h2 := hearlier .bug (by decide)
    have h3 := hearlier .task (by decide)
    rw [catMatches_epic] at h0
    rw [catMatches_feature] at h1
    rw [catMatches_bug] at h2
    rw [catMatches_task] at h3
    rw [catMatches_story] at hc
    simp only [detectIssueType, h0, h1, h2, h3, hc]
    rfl
  | documentation =>
    have h0 := hearlier .epic (by decide)
    have h1 := hearlier .feature (by decide)
    have h2 := hearlier .bug (by decide)
    have h3 := hearlier .task (by decide)
    have h4 := hearlier .story (by decide)
    rw [catMatches_epic] at h0
    rw [catMatches_feature] at h1
    rw [catMatches_bug] at h2
    rw [catMatches_task] at h3
    rw [catMatches_story] at h4
    rw [catMatches_documentation] at hc
    simp only [detectIssueType, h0, h1, h2, h3, h4, hc]
    rfl

/-! ## World helper lemmas -/

theorem setIssue_same (w : World) (n : Nat) (f : Issue → Issue) :
    setIssue w n f n = (w n).map f := by
  simp [setIssue]

theorem setIssue_other (w : World) (n : Nat) (f : Issue → Issue) (m : Nat) (h : m ≠ n) :
    setIssue w n f m = w m := by
  simp [setIssue, h]

theorem linkIssues_parent_missing (w : World) (pN cN : Nat) (k : LinkKind)
    (h : w pN = none) :
    linkIssues w pN cN k = (.error "Parent issue not found", w) := by
  simp [linkIssues, h]

theorem linkIssues_child_missing (w : World) (pN cN : Nat) (k : LinkKind) (p : Issue)
    (hp : w pN = some p) (hc : w cN = none) :
    linkIssues w pN cN k = (.error "Child issue not found", w) := by
  simp [linkIssues, hp, hc]

/-- Successful tracks link, with the final world spelled out. -/
theorem linkIssues_tracks_ok (w : World) (pN cN : Nat) (p c : Issue)
    (hp : w pN = some p) (hc : w cN = some c) :
    linkIssues w pN cN .tracks =
      (.ok ⟨pN, p.title, cN, c.title, .tracks⟩,
       setBody
         (setBody
           (addComment (addComment w pN (parentCommentText .tracks cN)) cN
             (childCommentText .tracks pN))
           cN (updateChildBody pN p.title c.body))
         pN (updateParentBody cN c.title p.body)) := by
  simp [linkIssues, hp, hc]

/-! ## Substring containment -/

theorem listContains_iff_occurs (pat : List Char) :
    ∀ s : List Char, listContains s pat = true ↔ pat <:+: s := by
  intro s
  induction s with
  | nil =>
    simp [listContains, List.isEmpty_iff]
  | cons c rest ih =>
    simp only [listContains, Bool.or_eq_true, List.isPrefixOf_iff_prefix, ih,
      List.infix_cons_iff]

theorem listContains_of_occurs {pat s : List Char} (h : pat <:+: s) :
    listContains s pat = true :=
  (listContains_iff_occurs pat s).2 h

theorem not_occurs_of_listContains_false {pat s : List Char}
    (h : listContains s pat = false) : ¬ pat <:+: s := by
  intro hi
  rw [listContains_of_occurs hi] at h
  simp at h

/-! ## Stable sort lemmas -/

theorem insSorted_perm {α : Type} (pri : α → Nat) (x : α) :
    ∀ l : List α, List.Perm (insSorted pri x l) (x :: l) := by
  intro l
  induction l with
  | nil => simp [insSorted]
  | cons y ys ih =>
    simp only [insSorted]
    split
    · exact List.Perm.refl _
    · exact (ih.cons y).trans (List.Perm.swap x y ys)

theorem stableSort_perm {α : Type} (pri : α → Nat) :
    ∀ l : List α, List.Perm (stableSort pri l) l := by
  intro l
  induction l with
  | nil => exact List.Perm.refl _
  | cons x xs ih => exact (insSorted_perm pri x (stableSort pri xs)).trans (ih.cons x)

theorem insSorted_pairwise {α : Type} (pri : α → Nat) (x : α) :
    ∀ l : List α, List.Pairwise (fun a b => pri a ≤ pri b) l →
      List.Pairwise (fun a b => pri a ≤ pri b) (insSorted pri x l) := by
  intro l
  induction l with
  | nil => intro _; simp [insSorted]
  | cons y ys ih =>
    intro h
    rw [List.pairwise_cons] at h
    simp only [insSorted]
    split
    · rename_i hle
      rw [List.pairwise_cons]
      refine ⟨?_, List.pairwise_cons.2 h⟩
      intro b hb
      rcases List.mem_cons.1 hb with hb | hb
      · exact hb ▸ hle
      · exact Nat.le_trans hle (h.1 b hb)
    · rename_i hgt
      rw [List.pairwise_cons]
      refine ⟨?_, ih h.2⟩
      intro b hb
      have hb2 := (insSorted_perm pri x ys).mem_iff.1 hb
      rcases List.mem_cons.1 hb2 with hb2 | hb2
      · subst hb2; omega
      · exact h.1 b hb2

theorem stableSort_pairwise {α : Type} (pri : α → Nat) :
    ∀ l : List α, List.Pairwise (fun a b => pri a ≤ pri b) (stableSort pri l) := by
  intro l
  induction l with
  | nil => simp [stableSort]
  | cons x xs ih => exact insSorted_pairwise pri x (stableSort pri xs) ih

theorem insSorted_filter_eq {α : Type} (pri : α → Nat) (x : α) (k : Nat)
    (hx : pri x = k) :
    ∀ l : List α, (insSorted pri x l).filter (fun e => pri e == k) =
      x :: l.filter (fun e => pri e == k) := by
  intro l
  induction l with
  | nil => simp [insSorted, hx]
  | cons y ys ih =>
    simp only [insSorted]
    split
    · simp [List.filter_cons, hx]
    · rename_i hgt
      have hy : (pri y == k) = false := by
        simp only [beq_eq_false_iff_ne]
        omega
      simp [List.filter_cons, hy, ih]

theorem insSorted_filter_ne {α : Type} (pri : α → Nat) (x : α) (k : Nat)
    (hx : pri x ≠ k) :
    ∀ l : List α, (insSorted pri x l).filter (fun e => pri e == k) =
      l.filter (fun e => pri e == k) := by
  intro l
  have hxb : (pri x == k) = false := by simp [hx]
  induction l with
  | nil => simp [insSorted, hxb]
  | cons y ys ih =>
    simp only [insSorted]
    split
    · simp [List.filter_cons, hxb]
    · rw [List.filter_cons, ih, List.filter_cons]

theorem stableSort_filter {α : Type} (pri : α → Nat) (k : Nat) :
    ∀ l : List α, (stableSort pri l).filter (fun e => pri e == k) =
      l.filter (fun e => pri e == k) := by
  intro l
  induction l with
  | nil => rfl
  | cons x xs ih =>
    simp only [stableSort]
    by_cases hx : pri x = k
    · rw [insSorted_filter_eq pri x k hx, ih]
      simp [List.filter_cons, hx]
    · rw [insSorted_filter_ne pri x k hx, ih]
      simp [List.filter_cons, hx]

/-! ## Decimal representation lemmas -/

theorem digitChar_isDigit (n : Nat) (h : n < 10) : (Nat.digitChar n).isDigit = true := by
  interval_cases n <;> decide

theorem toDigitsCore_digits :
    ∀ (fuel n : Nat) (ds : List Char), (∀ c ∈ ds, c.isDigit = true) →
      ∀ c ∈ Nat.toDigitsCore 10 fuel n ds, c.isDigit = true := by
  intro fuel
  induction fuel with
  | zero =>
    intro n ds h c hc
    simp only [Nat.toDigitsCore] at hc
    exact h c hc
  | succ f ih =>
    intro n ds h c hc
    simp only [Nat.toDigitsCore] at hc
    have hd : (Nat.digitChar (n % 10)).isDigit = true :=
      digitChar_isDigit _ (Nat.mod_lt _ (by omega))
    by_cases h0 : n / 10 = 0
    · rw [if_pos h0] at hc
      rcases List.mem_cons.1 hc with rfl | hc
      · exact hd
      · exact h c hc
    · rw [if_neg h0] at hc
      refine ih (n / 10) _ ?_ c hc
      intro x hx
      rcases List.mem_cons.1 hx with rfl | hx
      · exact hd
      · exact h x hx

theorem toDigitsCore_ne_nil :
    ∀ (fuel n : Nat) (ds : List Char), ds ≠ [] ∨ 0 < fuel →
      Nat.toDigitsCore 10 fuel n ds ≠ [] := by
  intro fuel
  induction fuel with
  | zero =>
    intro n ds h
    simp only [Nat.toDigitsCore]
    rcases h with h | h
    · exact h
    · omega
  | succ f ih =>
    intro n ds _
    simp only [Nat.toDigitsCore]
    by_cases h0 : n / 10 = 0
    · rw [if_pos h0]; simp
    · rw [if_neg h0]
      exact ih (n / 10) _ (Or.inl (by simp))

theorem repr_digits (n : Nat) : ∀ c ∈ (Nat.repr n).data, c.isDigit = true := by
  intro c hc
  have h : (Nat.repr n).data = Nat.toDigitsCore 10 (n + 1) n [] := rfl
  rw [h] at hc
  exact toDigitsCore_digits (n + 1) n [] (by simp) c hc

theorem repr_ne_nil (n : Nat) : (Nat.repr n).data ≠ [] := by
  have h : (Nat.repr n).data = Nat.toDigitsCore 10 (n + 1) n [] := rfl
  rw [h]
  exact toDigitsCore_ne_nil (n + 1) n [] (Or.inr (by omega))

theorem repr_cons_digit (n : Nat) :
    ∃ d rest, (Nat.repr n).data = d :: rest ∧ d.isDigit = true := by
  cases h : (Nat.repr n).data with
  | nil => exact absurd h (repr_ne_nil n)
  | cons d rest =>
    exact ⟨d, rest, rfl, repr_digits n d (by rw [h]; exact List.mem_cons_self d rest)⟩

theorem repr_no_nl (n : Nat) : '\n' ∉ (Nat.repr n).data := by
  intro h
  have := repr_digits n _ h
  exact absurd this (by decide)

/-! ## splitLines and joinLines lemmas -/

theorem splitLines_ne_nil : ∀ s : List Char, splitLines s ≠ [] := by
  intro s
  match s with
  | [] => simp [splitLines]
  | c :: rest =>
    simp only [splitLines]
    split
    · simp
    · split <;> simp

theorem splitLines_cons_nl (rest : List Char) :
    splitLines ('\n' :: rest) = [] :: splitLines rest := by
  simp [splitLines]

theorem splitLines_append_no_nl :
    ∀ (a : List Char), '\n' ∉ a → ∀ b : List Char,
      splitLines (a ++ b) = (a ++ (splitLines b).headI) :: (splitLines b).tail := by
  intro a
  induction a with
  | nil =>
    intro _ b
    cases h : splitLines b with
    | nil => exact absurd h (splitLines_ne_nil b)
    | cons l ls => simp [h]
  | cons x a2 ih =>
    intro hx b
    have hxn : x ≠ '\n' := fun he => hx (he ▸ List.mem_cons_self x a2)
    have ha2 : '\n' ∉ a2 := fun hm => hx (List.mem_cons_of_mem x hm)
    simp only [List.cons_append, splitLines, if_neg hxn]
    simp only [List.append_eq]
    rw [ih ha2 b]

theorem splitLines_of_no_nl (a : List Char) (h : '\n' ∉ a) : splitLines a = [a] := by
  have := splitLines_append_no_nl a h []
  simpa [splitLines] using this

theorem splitLines_append_nl (a : List Char) (h : '\n' ∉ a) (b : List Char) :
    splitLines (a ++ '\n' :: b) = a :: splitLines b := by
  rw [splitLines_append_no_nl a h ('\n' :: b), splitLines_cons_nl]
  simp

theorem joinLines_splitLines : ∀ s : List Char, joinLines (splitLines s) = s := by
  intro s
  induction s with
  | nil => rfl
  | cons c rest ih =>
    by_cases hc : c = '\n'
    · subst hc
      rw [splitLines_cons_nl]
      cases h : splitLines rest with
      | nil => exact absurd h (splitLines_ne_nil rest)
      | cons l ls =>
        rw [h] at ih
        show joinLines ([] :: l :: ls) = '\n' :: rest
        rw [show joinLines ([] :: l :: ls) = [] ++ '\n' :: joinLines (l :: ls) from rfl]
        rw [ih]
        rfl
    · simp only [splitLines, if_neg hc]
      cases h : splitLines rest with
      | nil => exact absurd h (splitLines_ne_nil rest)
      | cons l ls =>
        rw [h] at ih
        cases ls with
        | nil =>
          show joinLines [c :: l] = c :: rest
          show c :: l = c :: rest
          rw [show l = joinLines [l] from rfl, ih]
        | cons m ms =>
          show joinLines ((c :: l) :: m :: ms) = c :: rest
          show (c :: l) ++ '\n' :: joinLines (m :: ms) = c :: rest
          rw [show (c :: l) ++ '\n' :: joinLines (m :: ms)
              = c :: (l ++ '\n' :: joinLines (m :: ms)) from rfl]
          rw [show l ++ '\n' :: joinLines (m :: ms) = joinLines (l :: m :: ms) from rfl, ih]

theorem mem_joinLines_occurs :
    ∀ (ls : List (List Char)) (l : List Char), l ∈ ls → l <:+: joinLines ls := by
  intro ls
  induction ls with
  | nil => simp
  | cons x t ih =>
    intro l hl
    rcases List.mem_cons.1 hl with rfl | hl
    · cases t with
      | nil => exact List.infix_refl l
      | cons y ts => exact ⟨[], '\n' :: joinLines (y :: ts), rfl⟩
    · cases t with
      | nil => simp at hl
      | cons y ts =>
        obtain ⟨s1, t1, hh⟩ := ih l hl
        refine ⟨x ++ '\n' :: s1, t1, ?_⟩
        show (x ++ '\n' :: s1) ++ l ++ t1 = x ++ '\n' :: joinLines (y :: ts)
        rw [← hh]
        simp

theorem mem_splitLines_occurs (s : List Char) (l : List Char)
    (h : l ∈ splitLines s) : l <:+: s := by
  have := mem_joinLines_occurs (splitLines s) l h
  rwa [joinLines_splitLines] at this

theorem splitLines_no_nl : ∀ (s : List Char), ∀ l ∈ splitLines s, '\n' ∉ l := by
  intro s
  induction s with
  | nil =>
    intro l hl
    simp only [splitLines, List.mem_singleton] at hl
    subst hl; simp
  | cons c rest ih =>
    intro l hl
    by_cases hc : c = '\n'
    · subst hc
      rw [splitLines_cons_nl] at hl
      rcases List.mem_cons.1 hl with rfl | hl
      · simp
      · exact ih l hl
    · simp only [splitLines, if_neg hc] at hl
      cases h : splitLines rest with
      | nil => exact absurd h (splitLines_ne_nil rest)
      | cons t ts =>
        rw [h] at hl
        rcases List.mem_cons.1 hl with rfl | hl
        · intro hm
          rcases List.mem_cons.1 hm with he | hm
          · exact hc he.symm
          · exact ih t (by rw [h]; exact List.mem_cons_self t ts) hm
        · exact ih l (by rw [h]; exact List.mem_cons_of_mem t hl)

theorem splitLines_joinLines :
    ∀ ls : List (List Char), ls ≠ [] → (∀ l ∈ ls, '\n' ∉ l) →
      splitLines (joinLines ls) = ls := by
  intro ls
  induction ls with
  | nil => intro h _; exact absurd rfl h
  | cons x t ih =>
    intro _ hall
    cases t with
    | nil =>
      show splitLines x = [x]
      exact splitLines_of_no_nl x (hall x (List.mem_cons_self x []))
    | cons y ts =>
      show splitLines (x ++ '\n' :: joinLines (y :: ts)) = x :: y :: ts
      rw [splitLines_append_nl x (hall x (List.mem_cons_self x (y :: ts)))]
      rw [ih (by simp) (fun l hl => hall l (List.mem_cons_of_mem x hl))]

/-! ## hasTL and augmentTL lemmas -/

theorem hasTL_cons (x : List Char) (xs : List (List Char)) (h : xs ≠ []) :
    hasTL (x :: xs) = (isTaskLine x || hasTL xs) := by
  cases xs with
  | nil => exact absurd rfl h
  | cons y ys => rfl

theorem hasTL_append_item :
    ∀ (pre : List (List Char)) (item : List Char) (suf : List (List Char)),
      isTaskLine item = true → suf ≠ [] → hasTL (pre ++ item :: suf) = true := by
  intro pre
  induction pre with
  | nil =>
    intro item suf hi hs
    rw [List.nil_append, hasTL_cons item suf hs, hi, Bool.true_or]
  | cons p ps ih =>
    intro item suf hi hs
    rw [List.cons_append, hasTL_cons p (ps ++ item :: suf) (by simp),
      ih item suf hi hs, Bool.or_true]

theorem augmentTL_ne_nil (item : List Char) :
    ∀ ls : List (List Char), ls ≠ [] → augmentTL item ls ≠ [] := by
  intro ls h
  match ls with
  | [] => exact absurd rfl h
  | [l] => simp [augmentTL]
  | l :: next :: rest =>
    simp only [augmentTL]
    split
    · split <;> simp
    · simp

theorem augmentTL_insert (item : List Char) :
    ∀ ls : List (List Char), hasTL ls = true →
      ∃ pre suf, augmentTL item ls = pre ++ item :: suf ∧ suf ≠ [] := by
  intro ls
  induction ls with
  | nil => intro h; simp [hasTL] at h
  | cons l tail ih =>
    intro h
    cases tail with
    | nil => simp [hasTL] at h
    | cons next rest =>
      rw [hasTL_cons l (next :: rest) (by simp)] at h
      simp only [augmentTL]
      by_cases htl : isTaskLine l = true
      · by_cases hrun : (isTaskLine next && !rest.isEmpty) = true
        · rw [if_pos htl, if_pos hrun]
          have hna := Bool.and_eq_true_iff.mp hrun
          have hrest : rest ≠ [] := by
            rcases rest with _ | _
            · simp at hna
            · simp
          have hnext : hasTL (next :: rest) = true := by
            rw [hasTL_cons next rest hrest, hna.1, Bool.true_or]
          obtain ⟨pre, suf, heq, hsuf⟩ := ih hnext
          exact ⟨l :: pre, suf, by rw [heq]; rfl, hsuf⟩
        · rw [if_pos htl, if_neg hrun]
          exact ⟨[trimEndL l], augmentTL item (next :: rest), rfl,
            augmentTL_ne_nil item (next :: rest) (by simp)⟩
      · rw [if_neg htl]
        have hnext : hasTL (next :: rest) = true := by
          rcases Bool.or_eq_true_iff.mp h with h1 | h1
          · exact absurd h1 htl
          · exact h1
        obtain ⟨pre, suf, heq, hsuf⟩ := ih hnext
        exact ⟨l :: pre, suf, by rw [heq]; rfl, hsuf⟩

theorem no_nl_trimEndL (l : List Char) (h : '\n' ∉ l) : '\n' ∉ trimEndL l := by
  intro hx
  unfold trimEndL at hx
  exact h (List.mem_reverse.1 (List.dropWhile_subset _ (List.mem_reverse.1 hx)))

theorem augmentTL_no_nl (item : List Char) (hitem : '\n' ∉ item) :
    ∀ ls : List (List Char), (∀ l ∈ ls, '\n' ∉ l) →
      ∀ l ∈ augmentTL item ls, '\n' ∉ l := by
  intro ls
  induction ls with
  | nil => simp [augmentTL]
  | cons x tail ih =>
    intro hall l hl
    cases tail with
    | nil =>
      simp only [augmentTL, List.mem_singleton] at hl
      subst hl
      exact hall _ (List.mem_cons_self _ [])
    | cons next rest =>
      have hx := hall x (List.mem_cons_self x (next :: rest))
      have htail : ∀ l2 ∈ next :: rest, '\n' ∉ l2 :=
        fun l2 hl2 => hall l2 (List.mem_cons_of_mem x hl2)
      simp only [augmentTL] at hl
      split at hl
      · split at hl
        · rcases List.mem_cons.1 hl with rfl | hl
          · exact hx
          · exact ih htail l hl
        · rcases List.mem_cons.1 hl with rfl | hl
          · exact no_nl_trimEndL x hx
          · rcases List.mem_cons.1 hl with rfl | hl
            · exact hitem
            · exact ih htail l hl
      · rcases List.mem_cons.1 hl with rfl | hl
        · exact hx
        · exact ih htail l hl

/-! ## Task-item lemmas -/

theorem isTaskLine_taskItem (n : Nat) (t : String) :
    isTaskLine (taskItemFor n t).data = true := by
  obtain ⟨d, rest, hd, hdig⟩ := repr_cons_digit n
  have h7 : ("- [ ] #" : String).data = ['-', ' ', '[', ' ', ']', ' ', '#'] := rfl
  simp only [taskItemFor, String.data_append, h7, hd, List.cons_append, List.nil_append,
    List.append_assoc]
  simp [isTaskLine, hdig]

theorem taskItem_contains_ref (n : Nat) (t : String) :
    listContains (taskItemFor n t).data ('#' :: (Nat.repr n).data) = true := by
  apply listContains_of_occurs
  refine ⟨['-', ' ', '[', ' ', ']', ' '], (" " ++ t).data, ?_⟩
  have h7 : ("- [ ] #" : String).data = ['-', ' ', '[', ' ', ']', ' ', '#'] := rfl
  simp [taskItemFor, String.data_append, h7]

theorem taskItem_no_nl (n : Nat) (t : String) (ht : '\n' ∉ t.data) :
    '\n' ∉ (taskItemFor n t).data := by
  simp only [taskItemFor, String.data_append, List.mem_append, not_or]
  refine ⟨⟨⟨by decide, repr_no_nl n⟩, by decide⟩, ht⟩

/-! ## dedupFirst lemmas -/

theorem mem_dedupFirstAux :
    ∀ (l seen : List Nat) (n : Nat), n ∈ l → n ∈ seen ∨ n ∈ dedupFirstAux seen l := by
  intro l
  induction l with
  | nil => simp
  | cons x xs ih =>
    intro seen n hn
    rcases List.mem_cons.1 hn with rfl | hn
    · by_cases hx : n ∈ seen
      · exact Or.inl hx
      · right
        simp [dedupFirstAux, hx]
    · by_cases hx : x ∈ seen
      · rcases ih seen n hn with h | h
        · exact Or.inl h
        · right
          simpa [dedupFirstAux, hx] using h
      · rcases ih (x :: seen) n hn with h | h
        · rcases List.mem_cons.1 h with rfl | h2
          · right
            simp [dedupFirstAux, hx]
          · exact Or.inl h2
        · right
          simp only [dedupFirstAux, if_neg hx]
          exact List.mem_cons_of_mem x h

theorem mem_dedupFirst (l : List Nat) (n : Nat) (h : n ∈ l) : n ∈ dedupFirst l :=
  (mem_dedupFirstAux l [] n h).resolve_left (by simp)

/-! ## updateParentBody lemmas -/

theorem asString_data (l : List Char) : (List.asString l).data = l := rfl

theorem updateParentBody_noTL (n : Nat) (t b : String)
    (h : hasTL (splitLines b.data) = false) :
    updateParentBody n t b = "### Tasks\n" ++ taskItemFor n t ++ "\n\n" ++ b := by
  simp [updateParentBody, h]

theorem updateParentBody_stable (n : Nat) (t b : String)
    (h1 : hasTL (splitLines b.data) = true)
    (h2 : listContains b.data ('#' :: (Nat.repr n).data) = true) :
    updateParentBody n t b = b := by
  simp [updateParentBody, h1, h2]

theorem updateParentBody_augment (n : Nat) (t b : String)
    (h1 : hasTL (splitLines b.data) = true)
    (h2 : listContains b.data ('#' :: (Nat.repr n).data) = false) :
    updateParentBody n t b =
      List.asString (joinLines (augmentTL (taskItemFor n t).data (splitLines b.data))) := by
  simp [updateParentBody, h1, h2]

theorem updateParentBody_lines_insert (n : Nat) (t b : String) (ht : '\n' ∉ t.data)
    (h1 : hasTL (splitLines b.data) = true)
    (h2 : listContains b.data ('#' :: (Nat.repr n).data) = false) :
    ∃ pre suf, splitLines (updateParentBody n t b).data =
      pre ++ (taskItemFor n t).data :: suf ∧ suf ≠ [] := by
  rw [updateParentBody_augment n t b h1 h2, asString_data]
  have hroundtrip : splitLines (joinLines (augmentTL (taskItemFor n t).data (splitLines b.data)))
      = augmentTL (taskItemFor n t).data (splitLines b.data) := by
    apply splitLines_joinLines
    · exact augmentTL_ne_nil _ _ (splitLines_ne_nil b.data)
    · exact augmentTL_no_nl _ (taskItem_no_nl n t ht) _ (splitLines_no_nl b.data)
  rw [hroundtrip]
  exact augmentTL_insert _ _ h1

/-- Line decomposition of the freshly prepended Tasks section. -/
theorem prepend_lines (n : Nat) (t b : String) (ht : '\n' ∉ t.data) :
    splitLines ("### Tasks\n" ++ taskItemFor n t ++ "\n\n" ++ b).data =
      "### Tasks".data :: (taskItemFor n t).data :: [] :: splitLines b.data := by
  have hdata : ("### Tasks\n" ++ taskItemFor n t ++ "\n\n" ++ b).data
      = "### Tasks".data ++ '\n' :: ((taskItemFor n t).data ++ '\n' :: ('\n' :: b.data)) := by
    simp only [String.data_append]
    simp
  rw [hdata, splitLines_append_nl _ (by decide),
    splitLines_append_nl _ (taskItem_no_nl n t ht), splitLines_cons_nl]

theorem updateParentBody_invariant (n : Nat) (t b : String) (ht : '\n' ∉ t.data) :
    hasTL (splitLines (updateParentBody n t b).data) = true ∧
    listContains (updateParentBody n t b).data ('#' :: (Nat.repr n).data) = true := by
  by_cases h1 : hasTL (splitLines b.data) = true
  · by_cases h2 : listContains b.data ('#' :: (Nat.repr n).data) = true
    · rw [updateParentBody_stable n t b h1 h2]
      exact ⟨h1, h2⟩
    · have h2f : listContains b.data ('#' :: (Nat.repr n).data) = false :=
        Bool.not_eq_true _ ▸ Bool.eq_false_iff.2 h2
      obtain ⟨pre, suf, heq, hsuf⟩ := updateParentBody_lines_insert n t b ht h1 h2f
      constructor
      · rw [heq]
        exact hasTL_append_item pre _ suf (isTaskLine_taskItem n t) hsuf
      · have hmem : (taskItemFor n t).data ∈ splitLines (updateParentBody n t b).data := by
          rw [heq]
          simp
        have hinf := mem_splitLines_occurs _ _ hmem
        have hpat := (listContains_iff_occurs ('#' :: (Nat.repr n).data) _).1
          (taskItem_contains_ref n t)
        exact listContains_of_occurs (hpat.trans hinf)
  · have h1f : hasTL (splitLines b.data) = false :=
      Bool.not_eq_true _ ▸ Bool.eq_false_iff.2 h1
    rw [updateParentBody_noTL n t b h1f]
    constructor
    · rw [prepend_lines n t b ht]
      exact hasTL_append_item ["### Tasks".data] _ ([] :: splitLines b.data)
        (isTaskLine_taskItem n t) (by simp)
    · apply listContains_of_occurs
      have hpat := (listContains_iff_occurs ('#' :: (Nat.repr n).data) _).1
        (taskItem_contains_ref n t)
      refine hpat.trans ⟨"### Tasks\n".data, ("\n\n" ++ b).data, ?_⟩
      simp [String.data_append]

theorem checklistRefCount_prepend (n : Nat) (t b : String) (ht : '\n' ∉ t.data)
    (hb : listContains b.data ('#' :: (Nat.repr n).data) = false) :
    checklistRefCount n ("### Tasks\n" ++ taskItemFor n t ++ "\n\n" ++ b) = 1 := by
  unfold checklistRefCount
  rw [prepend_lines n t b ht]
  have hA : (isTaskLine "### Tasks".data && listContains "### Tasks".data
      ('#' :: (Nat.repr n).data)) = false := by
    rw [show isTaskLine "### Tasks".data = false from by decide, Bool.false_and]
  have hItem : (isTaskLine (taskItemFor n t).data && listContains (taskItemFor n t).data
      ('#' :: (Nat.repr n).data)) = true := by
    rw [isTaskLine_taskItem n t, taskItem_contains_ref n t, Bool.and_true]
  have hrest : List.filter (fun l => isTaskLine l && listContains l ('#' :: (Nat.repr n).data))
      (splitLines b.data) = [] := by
    rw [List.filter_eq_nil_iff]
    intro l hl
    cases hcon : listContains l ('#' :: (Nat.repr n).data) with
    | false => simp [hcon]
    | true =>
      exfalso
      have hinf := (listContains_iff_occurs _ l).1 hcon
      have hbl := listContains_of_occurs (hinf.trans (mem_splitLines_occurs b.data l hl))
      rw [hbl] at hb
      exact absurd hb (by decide)
  rw [List.filter_cons, List.filter_cons, List.filter_cons]
  simp [hA, hItem, hrest, show isTaskLine ([] : List Char) = false from rfl]

/-! ## World contents after a successful tracks link -/

theorem linkIssues_world_parent (w : World) (pN cN : Nat) (p c : Issue)
    (hp : w pN = some p) (hc : w cN = some c) (hne : pN ≠ cN) :
    (linkIssues w pN cN .tracks).2 pN =
      some ⟨p.title, updateParentBody cN c.title p.body, p.state, p.labels,
        p.comments ++ [parentCommentText .tracks cN]⟩ := by
  rw [linkIssues_tracks_ok w pN cN p c hp hc]
  simp [setBody, addComment, setIssue, hp, hne, Ne.symm hne]

theorem linkIssues_world_child (w : World) (pN cN : Nat) (p c : Issue)
    (hp : w pN = some p) (hc : w cN = some c) (hne : pN ≠ cN) :
    (linkIssues w pN cN .tracks).2 cN =
      some ⟨c.title, updateChildBody pN p.title c.body, c.state, c.labels,
        c.comments ++ [childCommentText .tracks pN]⟩ := by
  rw [linkIssues_tracks_ok w pN cN p c hp hc]
  simp [setBody, addComment, setIssue, hc, hne, Ne.symm hne]

/-- Unfolding of the read path at an existing issue. -/
theorem getIssueHierarchy_ok (w : World) (n : Nat) (i : Issue) (h : w n = some i) :
    getIssueHierarchy w n = .ok ⟨hierCurrent n i,
      (match findParentNum i.body.data with
       | none => []
       | some pn =>
         match w pn with
         | none => []
         | some p => [hierRelEntry pn p]),
      sortChildren
        ((dedupFirst (((i.comments.take 100).map (fun cm => tracksNums cm.data)).flatten)).filterMap
          (fun k => (w k).map (fun ci => hierRelEntry k ci)))⟩ := by
  simp [getIssueHierarchy, h]

/-! ## findParentNum lemmas -/

theorem not_prefix_across_nl :
    ∀ (a p rest : List Char), '\n' ∉ p → a.length < p.length →
      p.isPrefixOf (a ++ '\n' :: rest) = false := by
  intro a
  induction a with
  | nil =>
    intro p rest hnl hlen
    cases p with
    | nil => simp at hlen
    | cons q qs =>
      have hq : q ≠ '\n' := fun he => hnl (he ▸ List.mem_cons_self q qs)
      rw [List.nil_append, List.isPrefixOf_cons₂]
      rw [show (q == '\n') = false from beq_eq_false_iff_ne.2 hq, Bool.false_and]
  | cons x a2 ih =>
    intro p rest hnl hlen
    cases p with
    | nil => simp at hlen
    | cons q qs =>
      rw [List.cons_append, List.isPrefixOf_cons₂]
      have hqs : '\n' ∉ qs := fun hm => hnl (List.mem_cons_of_mem q hm)
      have hlen2 : a2.length < qs.length := by
        simp only [List.length_cons] at hlen
        omega
      rw [ih qs rest hqs hlen2, Bool.and_false]

/-- After appending a well-formed parent block for issue 100 to a body that
nowhere contains the marker, the parent-discovery scan finds exactly 100. -/
theorem findParentNum_linked :
    ∀ (b : List Char) (title : List Char),
      listContains b ("**Parent:**".data) = false →
      findParentNum (b ++ ("\n\n---\n**Parent:** #100 - ".data ++ title)) = some 100 := by
  intro b
  induction b with
  | nil => intro title _; rfl
  | cons ch b2 ih =>
    intro title h
    have hsplit : (("**Parent:**".data).isPrefixOf (ch :: b2) || listContains b2 ("**Parent:**".data)) = false := h
    have hparts := Bool.or_eq_false_iff.mp hsplit
    have hb2 : listContains b2 ("**Parent:**".data) = false := hparts.2
    have hnopre : hierParentPat.isPrefixOf
        (ch :: (b2 ++ ("\n\n---\n**Parent:** #100 - ".data ++ title))) = false := by
      by_contra hcon
      have hcon2 : hierParentPat.isPrefixOf
          (ch :: (b2 ++ ("\n\n---\n**Parent:** #100 - ".data ++ title))) = true := by
        cases hx : hierParentPat.isPrefixOf
            (ch :: (b2 ++ ("\n\n---\n**Parent:** #100 - ".data ++ title)))
        · exact absurd hx hcon
        · rfl
      have hpre13 : hierParentPat <+:
          (ch :: b2) ++ ("\n\n---\n**Parent:** #100 - ".data ++ title) := by
        rw [List.cons_append]
        exact List.isPrefixOf_iff_prefix.1 hcon2
      have hpre11 : ("**Parent:**".data) <+:
          (ch :: b2) ++ ("\n\n---\n**Parent:** #100 - ".data ++ title) :=
        List.IsPrefix.trans ⟨[' ', '#'], rfl⟩ hpre13
      rcases List.prefix_or_prefix_of_prefix hpre11
          (List.prefix_append (ch :: b2) _) with hcase | hcase
      · have : listContains (ch :: b2) ("**Parent:**".data) = true :=
          listContains_of_occurs hcase.isInfix
        rw [this] at h
        exact absurd h (by decide)
      · obtain ⟨s, hs⟩ := hcase
        cases s with
        | nil =>
          rw [List.append_nil] at hs
          have : listContains (ch :: b2) ("**Parent:**".data) = true :=
            listContains_of_occurs (hs ▸ List.infix_refl _)
          rw [this] at h
          exact absurd h (by decide)
        | cons sh st =>
          obtain ⟨t2, ht2⟩ := hpre11
          rw [← hs, List.append_assoc] at ht2
          have hconsume := List.append_cancel_left ht2
          have hsh : sh = '\n' := by
            have := congrArg (fun l => l.head?) hconsume
            simpa using this
          have hmem : '\n' ∈ "**Parent:**".data := by
            rw [← hs, hsh]
            exact List.mem_append_right _ (List.mem_cons_self _ _)
          exact absurd hmem (by decide)
    rw [List.cons_append]
    rw [show findParentNum
        (ch :: (b2 ++ ("\n\n---\n**Parent:** #100 - ".data ++ title))) =
        if hierParentPat.isPrefixOf
            (ch :: (b2 ++ ("\n\n---\n**Parent:** #100 - ".data ++ title))) then
          (match (ch :: (b2 ++ ("\n\n---\n**Parent:** #100 - ".data ++ title))).drop
              hierParentPat.length with
           | d :: t => if d.isDigit then some (grabNum (d :: t) 0).1
              else findParentNum (b2 ++ ("\n\n---\n**Parent:** #100 - ".data ++ title))
           | [] => findParentNum (b2 ++ ("\n\n---\n**Parent:** #100 - ".data ++ title)))
        else findParentNum (b2 ++ ("\n\n---\n**Parent:** #100 - ".data ++ title))
      from rfl]
    rw [hnopre]
    simp only [Bool.false_eq_true, if_false]
    exact ih title hb2

/-! ## Claim theorems -/

/-- C2: the classifier concatenates title and body (missing body empty),
lower-cases the result, and returns the first category in the fixed testing
order epic, feature, bug, task, story, documentation whose keyword set
matches; in particular the given epic example classifies as epic although it
also contains the feature keyword. -/
theorem claim_C2 :
    (∀ (title : String) (body : Option String) (c : IssueCat),
      catMatches c (combinedText title body) = true →
      (∀ c2 : IssueCat, catIdx c2 < catIdx c →
        catMatches c2 (combinedText title body) = false) →
      detectIssueType title body = some (catName c)) ∧
    detectIssueType "Epic: Implement user authentication system" none = some "epic" ∧
    catMatches .epic (combinedText "Epic: Implement user authentication system" none) = true ∧
    catMatches .feature (combinedText "Epic: Implement user authentication system" none) = true := by
  refine ⟨detectIssueType_eq_first_match, by decide, by decide, by decide⟩

theorem claim_C2_witness :
    detectIssueType "Fix crash" none = some "bug" :=
  claim_C2.1 "Fix crash" none .bug (by decide)
    (by intro c2; cases c2 <;> decide)

/-- C10: classification is by substring containment: a title containing the
epic keyword only inside the longer word Epicenter still classifies as epic,
not as no category; the combined text holds no stand-alone occurrence of the
keyword. -/
theorem claim_C10 :
    detectIssueType "Epicenter mapping" none = some "epic" ∧
    strContains (combinedText "Epicenter mapping" none) "epic" = true ∧
    strContains (combinedText "Epicenter mapping" none) " epic " = false := by
  refine ⟨by decide, by decide, by decide⟩

/-- C3 counterexample: with children of types bug, epic, task, epic
discovered in that order, the children list produced by the hierarchy read
path is not ordered epic, epic, bug, task as the claim states. -/
theorem claim_C3_counterexample :
    (getIssueHierarchy c3World 1).map (fun h => h.children.map HierEntry.type) ≠
      .ok [some "epic", some "epic", some "bug", some "task"] := by
  decide

/-- C3 amended: with children of types bug, epic, task, epic discovered in
that order, the sorted children list is epic, epic, task, bug (task priority
3 sorts before bug priority 4), the two epics keeping their discovery
order. -/
theorem claim_C3 :
    (getIssueHierarchy c3World 1).map
        (fun h => h.children.map (fun e => (e.number, e.type))) =
      .ok [(3, some "epic"), (5, some "epic"), (4, some "task"), (2, some "bug")] := by
  decide

/-- C4: the children sort of the hierarchy read path orders every children
list by the fixed type priority epic 0, feature 1, story 2, task 3, bug 4,
documentation 5, anything else 6, is a permutation, and children of equal
priority keep their discovery order. -/
theorem claim_C4 :
    (∀ l : List HierEntry,
      List.Pairwise (fun a b => childPri a ≤ childPri b) (sortChildren l) ∧
      List.Perm (sortChildren l) l ∧
      (∀ k, (sortChildren l).filter (fun e => childPri e == k) =
            l.filter (fun e => childPri e == k))) ∧
    typeOrder (some "epic") = 0 ∧ typeOrder (some "feature") = 1 ∧
    typeOrder (some "story") = 2 ∧ typeOrder (some "task") = 3 ∧
    typeOrder (some "bug") = 4 ∧ typeOrder (some "documentation") = 5 ∧
    typeOrder none = 6 := by
  refine ⟨?_, by decide, by decide, by decide, by decide, by decide, by decide, by decide⟩
  intro l
  exact ⟨stableSort_pairwise childPri l, stableSort_perm childPri l,
    fun k => stableSort_filter childPri k l⟩

/-- C7: the link write path resolves both issues before any mutation; a miss
of either one fails the whole call with the corresponding not-found error and
leaves the world untouched. -/
theorem claim_C7 :
    ∀ (w : World) (parentN childN : Nat) (kind : LinkKind),
      (w parentN = none →
        linkIssues w parentN childN kind = (.error "Parent issue not found", w)) ∧
      (∀ p, w parentN = some p → w childN = none →
        linkIssues w parentN childN kind = (.error "Child issue not found", w)) := by
  intro w pN cN k
  exact ⟨fun h => linkIssues_parent_missing w pN cN k h,
    fun p hp hc => linkIssues_child_missing w pN cN k p hp hc⟩

theorem claim_C7_witness :
    linkIssues (worldOf []) 1 2 .tracks = (.error "Parent issue not found", worldOf []) ∧
    linkIssues simpleWorld 100 102 .tracks = (.error "Child issue not found", simpleWorld) :=
  ⟨(claim_C7 (worldOf []) 1 2 .tracks).1 (by decide),
   (claim_C7 simpleWorld 100 102 .tracks).2 ⟨"Alpha", "", "OPEN", [], []⟩
     (by decide) (by decide)⟩

/-- C8: when both issues resolve and the native sub-issue mutation fails with
a message containing either capability-absence pattern (the field-missing
message or "Unknown field"), addSubIssue returns exactly the result and world
of the manual tracks link; any failure matching neither pattern propagates
unchanged with the world untouched. -/
theorem claim_C8 :
    ∀ (w : World) (parentN childN : Nat) (e : String) (p c : Issue),
      w parentN = some p → w childN = some c →
      ((strContains e fieldMissingPat || strContains e "Unknown field") = true →
        addSubIssue w parentN childN (.error e) =
          ((linkIssues w parentN childN .tracks).1.map SubIssueResult.linked,
           (linkIssues w parentN childN .tracks).2)) ∧
      ((strContains e fieldMissingPat || strContains e "Unknown field") = false →
        addSubIssue w parentN childN (.error e) = (.error e, w)) := by
  intro w pN cN e p c hp hc
  constructor
  · intro he
    simp [addSubIssue, hp, hc, he]
  · intro he
    simp [addSubIssue, hp, hc, he]

theorem claim_C8_witness :
    (addSubIssue simpleWorld 100 101 (.error fieldMissingPat) =
      ((linkIssues simpleWorld 100 101 .tracks).1.map SubIssueResult.linked,
       (linkIssues simpleWorld 100 101 .tracks).2)) ∧
    (addSubIssue simpleWorld 100 101 (.error "Unknown field detected") =
      ((linkIssues simpleWorld 100 101 .tracks).1.map SubIssueResult.linked,
       (linkIssues simpleWorld 100 101 .tracks).2)) ∧
    addSubIssue simpleWorld 100 101 (.error "boom") = (.error "boom", simpleWorld) := by
  have H1 := claim_C8 simpleWorld 100 101 fieldMissingPat
    ⟨"Alpha", "", "OPEN", [], []⟩ ⟨"Beta", "", "OPEN", [], []⟩ (by decide) (by decide)
  have H2 := claim_C8 simpleWorld 100 101 "Unknown field detected"
    ⟨"Alpha", "", "OPEN", [], []⟩ ⟨"Beta", "", "OPEN", [], []⟩ (by decide) (by decide)
  have H3 := claim_C8 simpleWorld 100 101 "boom"
    ⟨"Alpha", "", "OPEN", [], []⟩ ⟨"Beta", "", "OPEN", [], []⟩ (by decide) (by decide)
  exact ⟨H1.1 (by decide), H2.1 (by decide), H3.2 (by decide)⟩

/-- C9: issue creation with a parent number is best-effort about the link: if
the subsequent link step fails, the created issue is still returned, with the
failure message in the linkError field and no parentIssue field, and the
issue exists in the repository. -/
theorem claim_C9 :
    ∀ (w : World) (repoLabels : List String) (newN : Nat) (title : String)
      (body : Option String) (labels : List String) (pn : Nat),
      w pn = none → pn ≠ newN →
      ∃ res w2, createIssue w repoLabels newN title body labels (some pn) = (res, w2) ∧
        res.number = newN ∧ res.title = title ∧
        res.linkError = some "Parent issue not found" ∧
        res.parentIssue = none ∧
        (w2 newN).map Issue.title = some title := by
  intro w rl newN title body labels pn hpn hne
  simp only [createIssue]
  rw [linkIssues_parent_missing _ pn newN .tracks (by simp [hne, hpn])]
  exact ⟨_, _, rfl, rfl, rfl, rfl, rfl, by simp⟩

theorem claim_C9_witness :
    ∃ res w2, createIssue (worldOf []) ["bug"] 5 "Fix crash" none [] (some 3) = (res, w2) ∧
      res.number = 5 ∧ res.title = "Fix crash" ∧
      res.linkError = some "Parent issue not found" ∧ res.parentIssue = none ∧
      (w2 5).map Issue.title = some "Fix crash" :=
  claim_C9 (worldOf []) ["bug"] 5 "Fix crash" none [] 3 (by decide) (by decide)

/-- C1 counterexample: for the two existing issues of c1CexWorld, whose child
body is a bare parent marker, the link call completes, yet the hierarchy of
the child reports no parents, because the body replacement pattern matches
nothing and leaves the body without a readable parent reference. -/
theorem claim_C1_counterexample :
    (linkIssues c1CexWorld 100 101 .tracks).1 =
      .ok ⟨100, "Alpha", 101, "Beta", .tracks⟩ ∧
    (getIssueHierarchy (linkIssues c1CexWorld 100 101 .tracks).2 101).map Hierarchy.parents =
      .ok [] := by
  exact ⟨by decide, by decide⟩

/-- C1 amended: after a tracks link of existing issues 100 and 101, the
hierarchy of 100 lists 101 among its children and the hierarchy of 101 lists
100 among its parents, provided the child body does not already contain the
parent marker and the parent has fewer than 100 comments. -/
theorem claim_C1 :
    ∀ (w : World) (p c : Issue),
      w 100 = some p → w 101 = some c →
      strContains c.body "**Parent:**" = false →
      p.comments.length < 100 →
      (linkIssues w 100 101 .tracks).1 = .ok ⟨100, p.title, 101, c.title, .tracks⟩ ∧
      (∃ h, getIssueHierarchy (linkIssues w 100 101 .tracks).2 100 = .ok h ∧
        ∃ e ∈ h.children, e.number = 101) ∧
      (∃ h, getIssueHierarchy (linkIssues w 100 101 .tracks).2 101 = .ok h ∧
        ∃ e ∈ h.parents, e.number = 100) := by
  intro w p c hp hc hpar hlen
  have hne : (100 : Nat) ≠ 101 := by decide
  have h100 := linkIssues_world_parent w 100 101 p c hp hc hne
  have h101 := linkIssues_world_child w 100 101 p c hp hc hne
  refine ⟨?_, ?_, ?_⟩
  · rw [linkIssues_tracks_ok w 100 101 p c hp hc]
  · refine ⟨_, getIssueHierarchy_ok _ 100 _ h100, ?_⟩
    have htake : (p.comments ++ [parentCommentText .tracks 101]).take 100 =
        p.comments ++ [parentCommentText .tracks 101] := by
      apply List.take_of_length_le
      simp only [List.length_append, List.length_cons, List.length_nil]
      omega
    have htr : tracksNums (parentCommentText .tracks 101).data = [101] := by decide
    have hflat : 101 ∈ (((p.comments ++ [parentCommentText .tracks 101]).take 100).map
        (fun cm => tracksNums cm.data)).flatten := by
      rw [htake]
      simp only [List.map_append, List.flatten_append]
      apply List.mem_append_right
      simp [htr]
    have hnums := mem_dedupFirst _ 101 hflat
    have hentry : hierRelEntry 101 (⟨c.title, updateChildBody 100 p.title c.body, c.state,
        c.labels, c.comments ++ [childCommentText .tracks 100]⟩ : Issue) ∈
        (dedupFirst ((((⟨p.title, updateParentBody 101 c.title p.body, p.state, p.labels,
            p.comments ++ [parentCommentText .tracks 101]⟩ : Issue).comments.take 100).map
          (fun cm => tracksNums cm.data)).flatten)).filterMap
          (fun k => ((linkIssues w 100 101 .tracks).2 k).map (fun ci => hierRelEntry k ci)) := by
      apply List.mem_filterMap.2
      exact ⟨101, hnums, by rw [h101]; rfl⟩
    exact ⟨_, ((stableSort_perm childPri _).mem_iff).2 hentry, rfl⟩
  · have hub : updateChildBody 100 p.title c.body =
        c.body ++ ("\n\n---\n**Parent:** #" ++ Nat.repr 100 ++ " - " ++ p.title) := by
      simp [updateChildBody, hpar]
    have hfind : findParentNum (updateChildBody 100 p.title c.body).data = some 100 := by
      rw [hub]
      have hdata : (c.body ++ ("\n\n---\n**Parent:** #" ++ Nat.repr 100 ++ " - " ++ p.title)).data
          = c.body.data ++ ("\n\n---\n**Parent:** #100 - ".data ++ p.title.data) := by
        simp only [String.data_append]
        rw [show (Nat.repr 100).data = ['1', '0', '0'] from rfl]
        simp
      rw [hdata]
      exact findParentNum_linked c.body.data p.title.data hpar
    refine ⟨_, getIssueHierarchy_ok _ 101 _ h101, ?_⟩
    refine ⟨hierRelEntry 100 ⟨p.title, updateParentBody 101 c.title p.body, p.state, p.labels,
      p.comments ++ [parentCommentText .tracks 101]⟩, ?_, rfl⟩
    simp only [hfind, h100]
    simp

theorem claim_C1_witness :
    (linkIssues simpleWorld 100 101 .tracks).1 =
      .ok ⟨100, "Alpha", 101, "Beta", .tracks⟩ ∧
    (∃ h, getIssueHierarchy (linkIssues simpleWorld 100 101 .tracks).2 100 = .ok h ∧
      ∃ e ∈ h.children, e.number = 101) ∧
    (∃ h, getIssueHierarchy (linkIssues simpleWorld 100 101 .tracks).2 101 = .ok h ∧
      ∃ e ∈ h.parents, e.number = 100) :=
  claim_C1 simpleWorld ⟨"Alpha", "", "OPEN", [], []⟩ ⟨"Beta", "", "OPEN", [], []⟩
    (by decide) (by decide) (by decide) (by decide)

/-- C5 counterexample: with a parent body holding two separate task-list
blocks, two identical tracks links leave two checklist lines referencing the
child rather than exactly one: the first call appends one line to each
block. -/
theorem claim_C5_counterexample :
    (bodyOf (linkIssues (linkIssues c5CexWorld 100 101 .tracks).2 100 101 .tracks).2 100).map
      (checklistRefCount 101) = some 2 ∧ (2 : Nat) ≠ 1 := by
  exact ⟨by decide, by decide⟩

/-- C5 amended: linking 100 to 101 twice never duplicates the checklist
line: the second call leaves the parent body exactly as the first call left
it, because the first call always leaves a task list containing the child
reference and the containment check then skips the rewrite; when the parent
body initially holds no child reference and no task-list line, exactly one
checklist line referencing the child results. -/
theorem claim_C5 :
    ∀ (w : World) (p c : Issue),
      w 100 = some p → w 101 = some c → '\n' ∉ c.title.data →
      bodyOf (linkIssues (linkIssues w 100 101 .tracks).2 100 101 .tracks).2 100 =
        bodyOf (linkIssues w 100 101 .tracks).2 100 ∧
      (listContains p.body.data ('#' :: (Nat.repr 101).data) = false →
       hasTL (splitLines p.body.data) = false →
       (bodyOf (linkIssues (linkIssues w 100 101 .tracks).2 100 101 .tracks).2 100).map
          (checklistRefCount 101) = some 1) := by
  intro w p c hp hc hnl
  have hne : (100 : Nat) ≠ 101 := by decide
  have h100 := linkIssues_world_parent w 100 101 p c hp hc hne
  have h101 := linkIssues_world_child w 100 101 p c hp hc hne
  have h100b := linkIssues_world_parent _ 100 101 _ _ h100 h101 hne
  have hinv := updateParentBody_invariant 101 c.title p.body hnl
  have hstable : updateParentBody 101 c.title (updateParentBody 101 c.title p.body) =
      updateParentBody 101 c.title p.body :=
    updateParentBody_stable 101 c.title _ hinv.1 hinv.2
  constructor
  · show ((linkIssues (linkIssues w 100 101 .tracks).2 100 101 .tracks).2 100).map Issue.body =
      ((linkIssues w 100 101 .tracks).2 100).map Issue.body
    rw [h100b, h100]
    simp [hstable]
  · intro hno hnoTL
    have hb1 : updateParentBody 101 c.title p.body =
        "### Tasks\n" ++ taskItemFor 101 c.title ++ "\n\n" ++ p.body :=
      updateParentBody_noTL 101 c.title p.body hnoTL
    show (((linkIssues (linkIssues w 100 101 .tracks).2 100 101 .tracks).2 100).map
        Issue.body).map (checklistRefCount 101) = some 1
    rw [h100b]
    show some (checklistRefCount 101 (updateParentBody 101 c.title
        (updateParentBody 101 c.title p.body))) = some 1
    rw [hstable, hb1, checklistRefCount_prepend 101 c.title p.body hnl hno]

theorem claim_C5_witness :
    bodyOf (linkIssues (linkIssues simpleWorld 100 101 .tracks).2 100 101 .tracks).2 100 =
      bodyOf (linkIssues simpleWorld 100 101 .tracks).2 100 ∧
    (bodyOf (linkIssues (linkIssues simpleWorld 100 101 .tracks).2 100 101 .tracks).2 100).map
      (checklistRefCount 101) = some 1 := by
  have H := claim_C5 simpleWorld ⟨"Alpha", "", "OPEN", [], []⟩ ⟨"Beta", "", "OPEN", [], []⟩
    (by decide) (by decide) (by decide)
  exact ⟨H.1, H.2 (by decide) (by decide)⟩

/-- C6 counterexample: the parent body of c6CexWorld holds a task-list block
that does not reference child 7, yet because the containment check looks at
the whole body, which mentions the child outside the block, the link call
leaves the body unchanged and appends no checklist line. -/
theorem claim_C6_counterexample :
    hasTL (splitLines ("See #7 discussion\n- [ ] #5 step\n" : String).data) = true ∧
    listContains ("- [ ] #5 step" : String).data ('#' :: (Nat.repr 7).data) = false ∧
    bodyOf (linkIssues c6CexWorld 1 7 .tracks).2 1 = some "See #7 discussion\n- [ ] #5 step\n" ∧
    checklistRefCount 7 "See #7 discussion\n- [ ] #5 step\n" = 0 := by
  exact ⟨by decide, by decide, by decide, by decide⟩

/-- C6 amended: the parent-body rewrite of the tracks link behaves by cases
on the whole body: with a task-list block present and the reference token of
the child occurring anywhere in the body, the body is unchanged; with a block
present and no occurrence of the token, the new unchecked line for the child
appears in the line decomposition as a newline-terminated line (inserted
after each task-list run); with no block, a new Tasks section holding one
unchecked line is prepended ahead of the existing body. -/
theorem claim_C6 :
    ∀ (childN : Nat) (childTitle body : String), '\n' ∉ childTitle.data →
      (hasTL (splitLines body.data) = true →
        listContains body.data ('#' :: (Nat.repr childN).data) = true →
        updateParentBody childN childTitle body = body) ∧
      (hasTL (splitLines body.data) = true →
        listContains body.data ('#' :: (Nat.repr childN).data) = false →
        ∃ pre suf, splitLines (updateParentBody childN childTitle body).data =
          pre ++ (taskItemFor childN childTitle).data :: suf ∧ suf ≠ []) ∧
      (hasTL (splitLines body.data) = false →
        updateParentBody childN childTitle body =
          "### Tasks\n" ++ taskItemFor childN childTitle ++ "\n\n" ++ body) := by
  intro n t b ht
  exact ⟨updateParentBody_stable n t b, updateParentBody_lines_insert n t b ht,
    updateParentBody_noTL n t b⟩

theorem claim_C6_witness :
    updateParentBody 7 "C" "See #7 discussion\n- [ ] #5 step\n" =
      "See #7 discussion\n- [ ] #5 step\n" ∧
    (∃ pre suf, splitLines (updateParentBody 7 "C" "- [ ] #5 x\n").data =
      pre ++ (taskItemFor 7 "C").data :: suf ∧ suf ≠ []) ∧
    updateParentBody 7 "C" "hello" = "### Tasks\n" ++ taskItemFor 7 "C" ++ "\n\n" ++ "hello" := by
  refine ⟨(claim_C6 7 "C" "See #7 discussion\n- [ ] #5 step\n" (by decide)).1
      (by decide) (by decide),
    (claim_C6 7 "C" "- [ ] #5 x\n" (by decide)).2.1 (by decide) (by decide),
    (claim_C6 7 "C" "hello" (by decide)).2.2 (by decide)⟩

end GH
